import Mathlib

/-!
Verification of the subtitle-translator repository's core pipeline.

Python strings are modelled as `List Char` (`Str`), with executable
counterparts of the Python primitives the code uses (`str.strip`,
`str.isdigit`, `in` substring test, `str.split`, `sep.join`).  Effectful
code (HTTP requests, the language guesser) is modelled by passing the
effect's outcome explicitly: a backend server becomes a function from the
request payload to `Except error response`, and exceptions become
`Except.error`.

Sources embedded here:
- `subtitle_translator/utils/subtitle_parser.py` (`parse_srt_blocks`,
  `format_srt_blocks`)
- `subtitle_translator/translators/local_nllb_translator.py`
  (`LocalNLLBTranslator._translate_batch`, `.translate_text`, `.close`)
- `subtitle_translator/translators/hf_translator.py`
  (`HFTranslator._translate_batch`, `.translate_text`)
- `subtitle_translator/translators/base.py` (`BaseTranslator.translate_file`,
  `.close`)
- `web_app_standalone.py` (`GeminiTranslator._parse_batch_response`)
- `subtitle_translator/core/translator.py` (`Translator._detect_language`)
-/

/-- A Python string, modelled as its character list. -/
abbrev Str := List Char

/-- Python `str.strip()`: remove leading and trailing whitespace.
(Modelled over ASCII whitespace via `Char.isWhitespace`.) -/
def pyStrip (s : Str) : Str :=
  ((s.dropWhile Char.isWhitespace).reverse.dropWhile Char.isWhitespace).reverse

/-- Python `str.isdigit()`: nonempty and every character a digit. -/
def pyIsDigit (s : Str) : Bool :=
  !s.isEmpty && s.all Char.isDigit

/-- Python `pat in s`: substring containment test. -/
def containsSub (pat : Str) : Str → Bool
  | [] => pat.isPrefixOf []
  | c :: rest => pat.isPrefixOf (c :: rest) || containsSub pat rest

/-- Python `sep.join(parts)`. -/
def strJoin (sep : Str) : List Str → Str
  | [] => []
  | [x] => x
  | x :: y :: rest => x ++ sep ++ strJoin sep (y :: rest)

/-- Python `s.split(c)` for a one-character separator. -/
def splitOnChar (c : Char) : Str → List Str
  | [] => [[]]
  | x :: xs =>
    if x = c then [] :: splitOnChar c xs
    else
      match splitOnChar c xs with
      | [] => [[x]]
      | r :: rs => (x :: r) :: rs

/-- Python `s.split(sep, 1)[1]` for a separator known to occur in `s`:
everything after the first occurrence of `sep`. -/
def afterFirst (sep : Str) : Str → Str
  | [] => []
  | c :: rest =>
    if sep.isPrefixOf (c :: rest) then (c :: rest).drop sep.length
    else afterFirst sep rest

/-- A parsed block of `parse_srt_blocks`: either a structured subtitle
entry (`{'type': 'subtitle', 'index': ..., 'timestamp': ..., 'content': ...}`)
or an opaque line (`{'type': 'other', 'content': ...}`). -/
inductive SrtBlock where
  | subtitle (index timestamp content : Str) : SrtBlock
  | other (content : Str) : SrtBlock
deriving DecidableEq

/-- The scanning loop of `parse_srt_blocks` (subtitle_parser.py lines 5-35).
The Python `while i < len(lines)` loop advances `i` by at least one per
iteration; it is embedded with a fuel argument that `parse_srt_blocks`
instantiates with `lines.length`, which the loop never exhausts since every
iteration consumes at least one line while spending one unit of fuel. -/
def parseN : Nat → List Str → List SrtBlock
  | 0, _ => []
  | _ + 1, [] => []
  | fuel + 1, l :: rest =>
    let line := pyStrip l
    if pyIsDigit line then
      match rest with
      | [] => [SrtBlock.other line]
      | t :: rest2 =>
        if containsSub ['-', '-', '>'] t then
          let texts := rest2.takeWhile (fun x => !(pyStrip x).isEmpty)
          let rest3 := (rest2.dropWhile (fun x => !(pyStrip x).isEmpty)).drop 1
          SrtBlock.subtitle line (pyStrip t)
              (strJoin ['\n'] (texts.map pyStrip)) :: parseN fuel rest3
        else
          SrtBlock.other line :: parseN fuel rest2
    else
      if line.isEmpty then parseN fuel rest
      else SrtBlock.other line :: parseN fuel rest

/-- `parse_srt_blocks` (subtitle_parser.py lines 5-35): parse SRT file
content into structured blocks.  Total on every input. -/
def parse_srt_blocks (lines : List Str) : List SrtBlock :=
  parseN lines.length lines

/-- The lines `format_srt_blocks` emits for one block (subtitle_parser.py
lines 40-47): index, timestamp, content and a blank separator for a
subtitle block; the raw content line for an `other` block. -/
def blockLines : SrtBlock → List Str
  | .subtitle index timestamp content => [index, timestamp, content, []]
  | .other content => [content]

/-- `format_srt_blocks` (subtitle_parser.py lines 37-49): format structured
blocks back into SRT file content, joining all emitted lines with `'\n'`. -/
def format_srt_blocks (blocks : List SrtBlock) : Str :=
  strJoin ['\n'] (blocks.map blockLines).flatten

/-- An abstract well-formed timed subtitle block of the input document:
an index line, a timestamp line, and the text lines. -/
structure TimedBlock where
  index : Str
  timestamp : Str
  texts : List Str
deriving DecidableEq

/-- The raw input lines of one timed block: index line, timestamp line,
text lines, then one blank separator line. -/
def renderBlock (b : TimedBlock) : List Str :=
  b.index :: b.timestamp :: b.texts ++ [[]]

/-- The raw input lines of a whole timed document. -/
def renderDoc (bs : List TimedBlock) : List Str :=
  (bs.map renderBlock).flatten

/-- Well-formedness of one timed block, with canonical spacing: the index
line consists solely of digits, the timestamp line contains `-->`, there is
at least one text line, all lines are non-blank and carry no leading or
trailing whitespace. -/
def wellFormedBlock (b : TimedBlock) : Prop :=
  pyStrip b.index = b.index ∧ pyIsDigit b.index = true ∧
  pyStrip b.timestamp = b.timestamp ∧ containsSub ['-', '-', '>'] b.timestamp = true ∧
  b.texts ≠ [] ∧ ∀ t ∈ b.texts, pyStrip t = t ∧ t ≠ []

/-- Well-formedness of a whole timed document. -/
def wellFormedDoc (bs : List TimedBlock) : Prop :=
  ∀ b ∈ bs, wellFormedBlock b

instance (b : TimedBlock) : Decidable (wellFormedBlock b) := by
  unfold wellFormedBlock
  infer_instance

instance (bs : List TimedBlock) : Decidable (wellFormedDoc bs) := by
  unfold wellFormedDoc
  infer_instance

/-- The parsed form `parse_srt_blocks` produces for one well-formed timed
block: its text lines joined with `'\n'` as the content. -/
def parsedBlock (b : TimedBlock) : SrtBlock :=
  SrtBlock.subtitle b.index b.timestamp (strJoin ['\n'] b.texts)

/-- The parsed form of a whole well-formed timed document. -/
def parsedDoc (bs : List TimedBlock) : List SrtBlock :=
  bs.map parsedBlock

deriving instance DecidableEq for Except

/-- The chunking loop `for i in range(0, len(texts), batch_size)` of
`LocalNLLBTranslator._translate_batch` (local_nllb_translator.py line 168):
consecutive slices `texts[i:i+batch_size]`.  Each iteration consumes
`batch_size ≥ 1` elements, so `texts.length` units of fuel suffice;
`chunksOf` instantiates the fuel accordingly. -/
def chunksOfN (bs : Nat) : Nat → List α → List (List α)
  | 0, _ => []
  | _ + 1, [] => []
  | fuel + 1, l => l.take bs :: chunksOfN bs fuel (l.drop bs)

/-- The list of consecutive chunks of size `bs` (the last one may be
shorter).  For `bs = 0` the Python `range` raises; all theorems about
chunked translation assume `0 < bs`. -/
def chunksOf (bs : Nat) (l : List α) : List (List α) :=
  chunksOfN bs l.length l

/-- The JSON shapes the local NLLB server may answer with, as distinguished
by `_translate_batch` (local_nllb_translator.py lines 193-208): a bare
string, a dict with a `'translation'` key holding a string or a list, a
bare list, or anything else. -/
inductive NLLBResponse where
  | rstr (s : Str) : NLLBResponse
  | rdictStr (s : Str) : NLLBResponse
  | rdictList (l : List Str) : NLLBResponse
  | rlist (l : List Str) : NLLBResponse
  | rother : NLLBResponse
deriving DecidableEq

/-- The response-normalization step of `_translate_batch` (lines 193-208):
a bare string or a `'translation'` string is appended as one entry, a
`'translation'` list or a bare list is extended entry-wise, any other
shape raises. -/
def normalizeResponse : NLLBResponse → Except Str (List Str)
  | .rstr s => .ok [s]
  | .rdictStr s => .ok [s]
  | .rdictList l => .ok l
  | .rlist l => .ok l
  | .rother => .error "Unexpected response format".data

/-- The per-chunk request loop of `_translate_batch` (lines 168-214):
each chunk is posted to the server (`server` maps the chunk's text list to
either a failure — non-200 status, timeout, connection error — or a
response), the normalized entries are accumulated in order, and the first
failure propagates (the Python `raise`). -/
def runChunks (server : List Str → Except Str NLLBResponse) :
    List (List Str) → Except Str (List Str)
  | [] => .ok []
  | c :: cs =>
    match server c with
    | .error e => .error e
    | .ok resp =>
      match normalizeResponse resp with
      | .error e => .error e
      | .ok ts =>
        match runChunks server cs with
        | .error e => .error e
        | .ok rest => .ok (ts ++ rest)

/-- `LocalNLLBTranslator._translate_batch` (local_nllb_translator.py lines
140-216): empty input is an immediate empty success; otherwise the input is
chunked and each chunk posted sequentially, accumulating the normalized
responses.  `.error` models the function raising. -/
def lnb_translate_batch (server : List Str → Except Str NLLBResponse)
    (texts : List Str) (batch_size : Nat) : Except Str (List Str) :=
  if texts.isEmpty then .ok []
  else runChunks server (chunksOf batch_size texts)

/-- `LocalNLLBTranslator.translate_text` (lines 39-66): calls
`_translate_batch` on the one-element list and returns
`results[0] if results else ""`. -/
def lnb_translate_text (server : List Str → Except Str NLLBResponse)
    (text : Str) (batch_size : Nat) : Except Str Str :=
  match lnb_translate_batch server [text] batch_size with
  | .error e => .error e
  | .ok results => .ok (match results with | [] => [] | r :: _ => r)

/-- The JSON shapes the Hugging Face API may answer with, as distinguished
by `HFTranslator._translate_batch` (hf_translator.py lines 181-190): a list
of items each optionally carrying `'translation_text'`, a single dict with
`'translation_text'`, or anything else. -/
inductive HFResponse where
  | hlist (items : List (Option Str)) : HFResponse
  | hdict (s : Str) : HFResponse
  | hother : HFResponse
deriving DecidableEq

/-- `HFTranslator._translate_batch` (hf_translator.py lines 131-196): empty
input is an immediate empty success; otherwise all texts go out in one
request, a list response maps each item to `item.get('translation_text', '')`,
a single dict yields a one-element list, any other shape raises. -/
def hf_translate_batch (server : List Str → Except Str HFResponse)
    (texts : List Str) : Except Str (List Str) :=
  if texts.isEmpty then .ok []
  else
    match server texts with
    | .error e => .error e
    | .ok (.hlist items) => .ok (items.map (fun item => item.getD []))
    | .ok (.hdict s) => .ok [s]
    | .ok .hother => .error "Unexpected response format".data

/-- `HFTranslator.translate_text` (hf_translator.py lines 47-74): calls
`_translate_batch` on the one-element list and returns
`results[0] if results else ""`. -/
def hf_translate_text (server : List Str → Except Str HFResponse)
    (text : Str) : Except Str Str :=
  match hf_translate_batch server [text] with
  | .error e => .error e
  | .ok results => .ok (match results with | [] => [] | r :: _ => r)

/-- Modelled from the spec: "provide the single-text convenience operation
as a default/derived implementation built atop batch-translate-of-one" —
the derived single-text operation returns the first element of the batch
result on `[text]`, or the empty string if that result is empty. -/
def derivedSingleText (batch : List Str → Except Str (List Str))
    (text : Str) : Except Str Str :=
  (batch [text]).map (fun results => results.headD [])

/-- An aiohttp client session; `closed` is its closed flag. -/
structure Session where
  closed : Bool
deriving DecidableEq

/-- The session-holding state of a `LocalNLLBTranslator`: `self.session`,
which is `None` until `_get_session` first creates it. -/
structure LNBState where
  session : Option Session
deriving DecidableEq

/-- `LocalNLLBTranslator.close` (local_nllb_translator.py lines 278-283):
`if self.session and not self.session.closed: await self.session.close();
self.session = None`. -/
def lnb_close (st : LNBState) : LNBState :=
  match st.session with
  | some s => if s.closed then st else { session := none }
  | none => st

/-- `BaseTranslator.close` (base.py lines 100-102): a no-op (`pass`). -/
def base_close (st : LNBState) : LNBState :=
  st

/-- The translator holds no open session: any session still referenced is
already closed. -/
def sessionReleased (st : LNBState) : Prop :=
  ∀ s, st.session = some s → s.closed = true

/-- The positional reinsertion loop of `BaseTranslator.translate_file`
(base.py lines 79-81): `for i, event in enumerate(translated_subs):
if i < len(translated_blocks): event.plaintext = translated_blocks[i]` —
each event takes the translated text at its index while translations last;
events beyond the translated list keep their original text. -/
def applyTranslations : List Str → List Str → List Str
  | _, [] => []
  | [], evs => evs
  | t :: ts, _ :: evs => t :: applyTranslations ts evs

/-- `BaseTranslator.translate_file` (base.py lines 46-87) with the file
I/O at its boundary abstracted away: `events` is the list of the loaded
events' plaintexts and `batch` the `_translate_batch` call.  An empty text
list returns both documents unchanged without a backend call; a batch
exception makes the whole call return `None`; otherwise the translated
texts are reinserted positionally and the (original, translated) pair is
returned. -/
def base_translate_file (batch : List Str → Except Str (List Str))
    (events : List Str) : Option (List Str × List Str) :=
  if events.isEmpty then some (events, events)
  else
    match batch events with
    | .error _ => none
    | .ok translated_blocks => some (events, applyTranslations translated_blocks events)

/-- The numbering-strip step of `GeminiTranslator._parse_batch_response`
(web_app_standalone.py lines 407-409): if the stripped line starts with a
digit and contains `'. '`, keep only what follows the first `'. '`
(`line.split('. ', 1)[1]`). -/
def stripNumbering (line : Str) : Str :=
  if !line.isEmpty && (line.headD ' ').isDigit && containsSub ['.', ' '] line then
    afterFirst ['.', ' '] line
  else line

/-- The pad `while` loop of `_parse_batch_response` (lines 414-416): append
`translations[-1] if translations else ""` until `expected` entries exist.
Each iteration adds exactly one entry, so `expected` units of fuel suffice;
`parse_batch_response` instantiates the fuel accordingly. -/
def padLoopN (expected : Nat) : Nat → List Str → List Str
  | 0, ts => ts
  | fuel + 1, ts =>
    if ts.length < expected then padLoopN expected fuel (ts ++ [ts.getLastD []])
    else ts

/-- `GeminiTranslator._parse_batch_response` (web_app_standalone.py lines
398-424): split the stripped model reply on newlines, skip blank lines,
strip a leading numbering prefix from each remaining line, pad to
`expected_count` entries with the last parsed line (empty string when none
parsed), truncate to `expected_count`.  The Python `except` fallback is
unreachable here since every step of the body is total. -/
def parse_batch_response (response_text : Str) (expected_count : Nat) : List Str :=
  let lines := splitOnChar '\n' (pyStrip response_text)
  let translations := lines.filterMap (fun l =>
    let line := pyStrip l
    if line.isEmpty then none else some (stripNumbering line))
  (padLoopN expected_count expected_count translations).take expected_count

/-- The ISO-639-1 → NLLB code map of `Translator._detect_language`
(core/translator.py lines 90-174), in source order.  The Python dict
literal repeats the keys `pa`, `si`, `my`, `km`, `lo`, `th`, `bo`, `dz`
with identical values, so the first-match lookup below agrees with
Python's later-wins dict construction. -/
def lang_map : List (String × String) :=
  [("en", "eng_Latn"), ("es", "spa_Latn"), ("fr", "fra_Latn"),
   ("de", "deu_Latn"), ("it", "ita_Latn"), ("pt", "por_Latn"),
   ("ru", "rus_Cyrl"), ("nl", "nld_Latn"), ("pl", "pol_Latn"),
   ("uk", "ukr_Cyrl"), ("tr", "tur_Latn"), ("ar", "arb_Arab"),
   ("zh", "zho_Hans"), ("zh-tw", "zho_Hant"), ("ja", "jpn_Jpan"),
   ("ko", "kor_Hang"), ("hi", "hin_Deva"), ("bn", "ben_Beng"),
   ("pa", "pan_Guru"), ("ta", "tam_Taml"), ("te", "tel_Telu"),
   ("mr", "mar_Deva"), ("vi", "vie_Latn"), ("th", "tha_Thai"),
   ("id", "ind_Latn"), ("ms", "zsm_Latn"), ("fil", "tgl_Latn"),
   ("sw", "swh_Latn"), ("ha", "hau_Latn"), ("yo", "yor_Latn"),
   ("ig", "ibo_Latn"), ("am", "amh_Ethi"), ("zu", "zul_Latn"),
   ("xh", "xho_Latn"), ("st", "sot_Latn"), ("tn", "tsn_Latn"),
   ("sn", "sna_Latn"), ("rw", "kin_Latn"), ("mg", "plt_Latn"),
   ("so", "som_Latn"), ("om", "gaz_Latn"), ("ti", "tir_Ethi"),
   ("he", "heb_Hebr"), ("fa", "pes_Arab"), ("ur", "urd_Arab"),
   ("ps", "pbt_Arab"), ("ku", "kmr_Latn"), ("ckb", "ckb_Arab"),
   ("ne", "npi_Deva"), ("si", "sin_Sinh"), ("km", "khm_Khmr"),
   ("lo", "lao_Laoo"), ("my", "mya_Mymr"), ("ka", "kat_Geor"),
   ("hy", "hye_Armn"), ("az", "azj_Latn"), ("uz", "uzn_Latn"),
   ("kk", "kaz_Cyrl"), ("ky", "kir_Cyrl"), ("tg", "tgk_Cyrl"),
   ("tk", "tuk_Latn"), ("mn", "khk_Cyrl"), ("bo", "bod_Tibt"),
   ("dz", "dzo_Tibt"), ("ceb", "ceb_Latn"), ("jv", "jav_Latn"),
   ("su", "sun_Latn"), ("ml", "mal_Mlym"), ("kn", "kan_Knda"),
   ("gu", "guj_Gujr"), ("or", "ory_Orya"), ("as", "asm_Beng"),
   ("mai", "mai_Deva"), ("sd", "snd_Arab"), ("pa", "pan_Guru"),
   ("si", "sin_Sinh"), ("my", "mya_Mymr"), ("km", "khm_Khmr"),
   ("lo", "lao_Laoo"), ("th", "tha_Thai"), ("bo", "bod_Tibt"),
   ("dz", "dzo_Tibt")]

/-- Python `dict.get(key)`: first-match association lookup. -/
def lookupCode : List (String × String) → String → Option String
  | [], _ => none
  | (k, v) :: rest, lang => if k = lang then some v else lookupCode rest lang

/-- `Translator._detect_language` (core/translator.py lines 74-181).  The
whole `try` body up to the guess — file read, sample extraction, artifact
stripping, `langdetect.detect` — is abstracted as its outcome `detection`:
`.error` when any of it raised, `.ok lang` when the guesser returned
`lang`.  The guessed code is mapped through `lang_map` with default
`'eng_Latn'` (`lang_map.get(lang, 'eng_Latn')`); the `except` branch also
returns `'eng_Latn'`. -/
def detect_language (detection : Except Unit String) : String :=
  match detection with
  | .error _ => "eng_Latn"
  | .ok lang => (lookupCode lang_map lang).getD "eng_Latn"

/-- Whether a batch outcome is a failure (the Python call raised). -/
def exceptFails : Except Str (List Str) → Bool
  | .error _ => true
  | .ok _ => false

/-- The outcome of processing one chunk inside `_translate_batch`: the
server's answer for the chunk, normalized; a server failure or an
unexpected shape is a failure. -/
def chunkResult (server : List Str → Except Str NLLBResponse)
    (c : List Str) : Except Str (List Str) :=
  match server c with
  | .error e => .error e
  | .ok resp => normalizeResponse resp

/-! ## Helper lemmas -/

theorem applyTranslations_eq (tb : List Str) :
    ∀ evs : List Str,
      applyTranslations tb evs = tb.take evs.length ++ evs.drop tb.length := by
  induction tb with
  | nil => intro evs; cases evs <;> simp [applyTranslations]
  | cons t ts ih =>
    intro evs
    cases evs with
    | nil => simp [applyTranslations]
    | cons e evs => simp [applyTranslations, ih evs]

theorem padLoopN_le_length (expected : Nat) :
    ∀ (fuel : Nat) (ts : List Str), expected ≤ ts.length + fuel →
      expected ≤ (padLoopN expected fuel ts).length := by
  intro fuel
  induction fuel with
  | zero => intro ts h; simpa [padLoopN] using h
  | succ n ih =>
    intro ts h
    simp only [padLoopN]
    split
    · apply ih
      simp only [List.length_append, List.length_cons, List.length_nil]
      omega
    · omega

theorem padLoop_take_length (e : Nat) (ts : List Str) :
    ((padLoopN e e ts).take e).length = e := by
  have h := padLoopN_le_length e e ts (Nat.le_add_left _ _)
  simp only [List.length_take]
  omega

theorem runChunks_ok_of_aligned (server : List Str → Except Str NLLBResponse)
    (f : Str → Str) :
    ∀ cs : List (List Str),
      (∀ c ∈ cs, server c = Except.ok (NLLBResponse.rlist (c.map f))) →
      runChunks server cs = Except.ok (cs.flatten.map f) := by
  intro cs
  induction cs with
  | nil => intro _; simp [runChunks]
  | cons c cs ih =>
    intro h
    have hc := h c (List.mem_cons_self c cs)
    have hrest := ih (fun c' hc' => h c' (List.mem_cons_of_mem c hc'))
    simp [runChunks, hc, normalizeResponse, hrest]

theorem chunksOfN_flatten {α : Type} (bs : Nat) (hbs : 0 < bs) :
    ∀ (fuel : Nat) (l : List α), l.length ≤ fuel →
      (chunksOfN bs fuel l).flatten = l := by
  intro fuel
  induction fuel with
  | zero =>
    intro l h
    have hl : l = [] := List.length_eq_zero.mp (Nat.le_zero.mp h)
    subst hl; rfl
  | succ n ih =>
    intro l h
    cases l with
    | nil => rfl
    | cons x xs =>
      have hlen : ((x :: xs).drop bs).length ≤ n := by
        simp only [List.length_drop, List.length_cons]
        simp only [List.length_cons] at h
        omega
      calc (chunksOfN bs (n + 1) (x :: xs)).flatten
          = ((x :: xs).take bs :: chunksOfN bs n ((x :: xs).drop bs)).flatten := rfl
        _ = (x :: xs).take bs ++ (chunksOfN bs n ((x :: xs).drop bs)).flatten :=
            List.flatten_cons
        _ = (x :: xs).take bs ++ (x :: xs).drop bs := by rw [ih _ hlen]
        _ = x :: xs := List.take_append_drop bs (x :: xs)

theorem chunksOf_flatten {α : Type} (bs : Nat) (hbs : 0 < bs) (l : List α) :
    (chunksOf bs l).flatten = l :=
  chunksOfN_flatten bs hbs l.length l (Nat.le_refl _)

theorem runChunks_fails_of_chunk (server : List Str → Except Str NLLBResponse) :
    ∀ cs : List (List Str),
      (∃ c ∈ cs, exceptFails (chunkResult server c) = true) →
      exceptFails (runChunks server cs) = true := by
  intro cs
  induction cs with
  | nil =>
    rintro ⟨c, hc, _⟩
    exact absurd hc (List.not_mem_nil c)
  | cons c cs ih =>
    rintro ⟨c', hc', hf⟩
    rcases List.mem_cons.mp hc' with heq | hmem
    · subst heq
      unfold chunkResult at hf
      cases hs : server c' with
      | error e => simp [runChunks, hs, exceptFails]
      | ok resp =>
        simp only [hs] at hf
        cases hn : normalizeResponse resp with
        | error e => simp [runChunks, hs, hn, exceptFails]
        | ok ts => rw [hn] at hf; simp [exceptFails] at hf
    · have hrest := ih ⟨c', hmem, hf⟩
      cases hs : server c with
      | error e => simp [runChunks, hs, exceptFails]
      | ok resp =>
        cases hn : normalizeResponse resp with
        | error e => simp [runChunks, hs, hn, exceptFails]
        | ok ts =>
          cases hr : runChunks server cs with
          | error e => simp [runChunks, hs, hn, hr, exceptFails]
          | ok rest => rw [hr] at hrest; simp [exceptFails] at hrest

theorem length_dropWhile_le {α : Type} (p : α → Bool) (l : List α) :
    (l.dropWhile p).length ≤ l.length := by
  induction l with
  | nil => simp [List.dropWhile]
  | cons x xs ih =>
    simp only [List.dropWhile]
    split
    · simp only [List.length_cons]; omega
    · simp

theorem takeWhile_append_middle {α : Type} (p : α → Bool) (xs : List α) (y : α)
    (ys : List α) (hx : ∀ x ∈ xs, p x = true) (hy : p y = false) :
    (xs ++ y :: ys).takeWhile p = xs := by
  induction xs with
  | nil => simp [List.takeWhile, hy]
  | cons x xs ih =>
    have hpx := hx x (List.mem_cons_self x xs)
    have hih := ih (fun x' hx' => hx x' (List.mem_cons_of_mem x hx'))
    show ((x :: (xs ++ y :: ys)).takeWhile p) = x :: xs
    simp only [List.takeWhile, hpx]
    exact congrArg (x :: ·) hih

theorem dropWhile_append_middle {α : Type} (p : α → Bool) (xs : List α) (y : α)
    (ys : List α) (hx : ∀ x ∈ xs, p x = true) (hy : p y = false) :
    (xs ++ y :: ys).dropWhile p = y :: ys := by
  induction xs with
  | nil => simp [List.dropWhile, hy]
  | cons x xs ih =>
    have hpx := hx x (List.mem_cons_self x xs)
    have hih := ih (fun x' hx' => hx x' (List.mem_cons_of_mem x hx'))
    show ((x :: (xs ++ y :: ys)).dropWhile p) = y :: ys
    simp only [List.dropWhile, hpx]
    exact hih

theorem map_pyStrip_self (l : List Str) (h : ∀ t ∈ l, pyStrip t = t) :
    l.map pyStrip = l := by
  induction l with
  | nil => rfl
  | cons t ts ih =>
    simp only [List.map_cons, h t (List.mem_cons_self t ts)]
    rw [ih (fun t' ht' => h t' (List.mem_cons_of_mem t ht'))]

theorem parseN_nil : ∀ fuel : Nat, parseN fuel [] = [] := by
  intro fuel
  cases fuel <;> rfl

theorem parseN_congr :
    ∀ (fuel fuel' : Nat) (lines : List Str),
      lines.length ≤ fuel → lines.length ≤ fuel' →
      parseN fuel lines = parseN fuel' lines := by
  intro fuel
  induction fuel with
  | zero =>
    intro fuel' lines h _
    have hl : lines = [] := List.length_eq_zero.mp (Nat.le_zero.mp h)
    subst hl
    cases fuel' <;> rfl
  | succ n ih =>
    intro fuel' lines h h'
    cases lines with
    | nil => cases fuel' <;> rfl
    | cons l rest =>
      cases fuel' with
      | zero => simp at h'
      | succ n' =>
        simp only [List.length_cons, Nat.add_le_add_iff_right] at h h'
        cases rest with
        | nil => simp only [parseN, parseN_nil]
        | cons t rest2 =>
          simp only [List.length_cons] at h h'
          simp only [parseN]
          refine if_congr Iff.rfl ?_ ?_
          · refine if_congr Iff.rfl ?_ ?_
            · refine congrArg _ ?_
              have hlen := length_dropWhile_le (fun x => !(pyStrip x).isEmpty) rest2
              exact ih n' _
                (by simp only [List.length_drop]; omega)
                (by simp only [List.length_drop]; omega)
            · exact congrArg _ (ih n' rest2 (by omega) (by omega))
          · refine if_congr Iff.rfl ?_ ?_
            · exact ih n' (t :: rest2) (by simp; omega) (by simp; omega)
            · exact congrArg _ (ih n' (t :: rest2) (by simp; omega) (by simp; omega))

theorem parse_renderDoc_append :
    ∀ (bs : List TimedBlock) (suffix : List Str), wellFormedDoc bs →
      parse_srt_blocks (renderDoc bs ++ suffix) =
        parsedDoc bs ++ parse_srt_blocks suffix := by
  intro bs
  induction bs with
  | nil =>
    intro suffix _
    simp [renderDoc, parsedDoc]
  | cons b bs ih =>
    intro suffix hwf
    obtain ⟨hidx, hdig, hts, hcont, htne, htexts⟩ := hwf b (List.mem_cons_self b bs)
    have hrest : wellFormedDoc bs := fun b' hb' => hwf b' (List.mem_cons_of_mem b hb')
    have hpx : ∀ x ∈ b.texts, (fun x => !(pyStrip x).isEmpty) x = true := by
      intro x hx
      obtain ⟨h1, h2⟩ := htexts x hx
      show (!(pyStrip x).isEmpty) = true
      rw [h1]
      cases x with
      | nil => exact absurd rfl h2
      | cons a l => rfl
    have hre : renderDoc (b :: bs) ++ suffix =
        b.index :: b.timestamp :: (b.texts ++ ([] : Str) :: (renderDoc bs ++ suffix)) := by
      simp [renderDoc, renderBlock]
    rw [hre]
    unfold parse_srt_blocks
    simp only [List.length_cons]
    simp only [parseN]
    rw [if_pos (show pyIsDigit (pyStrip b.index) = true by rw [hidx]; exact hdig)]
    rw [if_pos hcont]
    rw [takeWhile_append_middle _ b.texts ([] : Str) (renderDoc bs ++ suffix) hpx rfl]
    rw [dropWhile_append_middle _ b.texts ([] : Str) (renderDoc bs ++ suffix) hpx rfl]
    simp only [List.drop_succ_cons, List.drop_zero]
    rw [map_pyStrip_self b.texts (fun t ht => (htexts t ht).1)]
    rw [hidx, hts]
    have htail : parseN ((b.texts ++ [] :: (renderDoc bs ++ suffix)).length + 1)
        (renderDoc bs ++ suffix) = parse_srt_blocks (renderDoc bs ++ suffix) := by
      unfold parse_srt_blocks
      exact parseN_congr _ _ _
        (by simp only [List.length_append, List.length_cons]; omega) (Nat.le_refl _)
    rw [htail, ih suffix hrest]
    simp [parsedDoc, parsedBlock, parse_srt_blocks]

theorem strJoin_cons (sep x : Str) (xs : List Str) (h : xs ≠ []) :
    strJoin sep (x :: xs) = x ++ sep ++ strJoin sep xs := by
  cases xs with
  | nil => exact absurd rfl h
  | cons y ys => rfl

theorem strJoin_append_ne (sep : Str) (xs ys : List Str) (hx : xs ≠ []) (hy : ys ≠ []) :
    strJoin sep (xs ++ ys) = strJoin sep xs ++ sep ++ strJoin sep ys := by
  induction xs with
  | nil => exact absurd rfl hx
  | cons x xs ih =>
    cases xs with
    | nil =>
      show strJoin sep (x :: ys) = strJoin sep [x] ++ sep ++ strJoin sep ys
      rw [strJoin_cons sep x ys hy]
      rfl
    | cons x' xs' =>
      have hne : (x' :: xs') ++ ys ≠ [] := by simp
      show strJoin sep (x :: ((x' :: xs') ++ ys)) = _
      rw [strJoin_cons sep x _ hne, ih (by simp),
        strJoin_cons sep x (x' :: xs') (by simp)]
      simp [List.append_assoc]

theorem strJoin_blockLines (b : TimedBlock) (hne : b.texts ≠ []) :
    strJoin ['\n'] (blockLines (parsedBlock b)) = strJoin ['\n'] (renderBlock b) := by
  have h1 : strJoin ['\n'] (b.texts ++ [[]]) =
      strJoin ['\n'] b.texts ++ ['\n'] ++ ([] : Str) :=
    strJoin_append_ne _ _ _ hne (by simp)
  show b.index ++ ['\n'] ++ (b.timestamp ++ ['\n'] ++
      (strJoin ['\n'] b.texts ++ ['\n'] ++ ([] : Str))) =
    strJoin ['\n'] (b.index :: b.timestamp :: (b.texts ++ [[]]))
  rw [strJoin_cons _ b.index _ (by simp), strJoin_cons _ b.timestamp _ (by simp), h1]

theorem format_parsedDoc :
    ∀ bs : List TimedBlock, (∀ b ∈ bs, b.texts ≠ []) →
      format_srt_blocks (parsedDoc bs) = strJoin ['\n'] (renderDoc bs) := by
  intro bs
  induction bs with
  | nil => intro _; rfl
  | cons b bs ih =>
    intro h
    have hb := h b (List.mem_cons_self b bs)
    have hrest := fun b' hb' => h b' (List.mem_cons_of_mem b hb')
    cases bs with
    | nil =>
      show strJoin ['\n'] (blockLines (parsedBlock b) ++ []) = strJoin ['\n'] (renderDoc [b])
      rw [List.append_nil]
      have h2 : renderDoc [b] = renderBlock b := by simp [renderDoc]
      rw [h2]
      exact strJoin_blockLines b hb
    | cons b' bs' =>
      have hFne : ((parsedDoc (b' :: bs')).map blockLines).flatten ≠ [] := by
        show (blockLines (parsedBlock b') ++ ((parsedDoc bs').map blockLines).flatten) ≠ []
        simp [blockLines, parsedBlock]
      have hRne : renderDoc (b' :: bs') ≠ [] := by
        show (renderBlock b' ++ renderDoc bs') ≠ []
        simp [renderBlock]
      calc format_srt_blocks (parsedDoc (b :: b' :: bs'))
          = strJoin ['\n'] (blockLines (parsedBlock b) ++
              ((parsedDoc (b' :: bs')).map blockLines).flatten) := rfl
        _ = strJoin ['\n'] (blockLines (parsedBlock b)) ++ ['\n'] ++
              strJoin ['\n'] (((parsedDoc (b' :: bs')).map blockLines).flatten) :=
            strJoin_append_ne _ _ _ (by simp [blockLines, parsedBlock]) hFne
        _ = strJoin ['\n'] (renderBlock b) ++ ['\n'] ++
              strJoin ['\n'] (renderDoc (b' :: bs')) := by
            rw [strJoin_blockLines b hb]
            rw [show strJoin ['\n'] (((parsedDoc (b' :: bs')).map blockLines).flatten) =
              format_srt_blocks (parsedDoc (b' :: bs')) from rfl]
            rw [ih hrest]
        _ = strJoin ['\n'] (renderBlock b ++ renderDoc (b' :: bs')) :=
            (strJoin_append_ne _ _ _ (by simp [renderBlock]) hRne).symm
        _ = strJoin ['\n'] (renderDoc (b :: b' :: bs')) := rfl

/-! ## Claim theorems -/

/-- C9: for the empty list of segments, batch translation is a no-op
success: `_translate_batch([])` returns the empty list without raising,
for every server whatsoever — in particular no backend request is
consulted (both for `LocalNLLBTranslator` and for `HFTranslator`). -/
theorem claim_C9_empty_batch_noop :
    (∀ (server : List Str → Except Str NLLBResponse) (batch_size : Nat),
      lnb_translate_batch server [] batch_size = Except.ok []) ∧
    (∀ server : List Str → Except Str HFResponse,
      hf_translate_batch server [] = Except.ok []) := by
  exact ⟨fun _ _ => rfl, fun _ => rfl⟩

/-- C7: `close()` is idempotent and total: `close (close st) = close st`
for every state, after a `close` no open session is held, closing a
translator whose session was never created leaves it sessionless, and
`BaseTranslator.close` is a no-op hence idempotent. -/
theorem claim_C7_close_idempotent :
    (∀ st : LNBState, lnb_close (lnb_close st) = lnb_close st) ∧
    (∀ st : LNBState, sessionReleased (lnb_close st)) ∧
    lnb_close { session := none } = { session := none } ∧
    (∀ st : LNBState, base_close (base_close st) = base_close st) := by
  refine ⟨?_, ?_, rfl, fun _ => rfl⟩
  · rintro ⟨sess⟩
    cases sess with
    | none => rfl
    | some s => cases hc : s.closed <;> simp [lnb_close, hc]
  · rintro ⟨sess⟩
    cases sess with
    | none => intro s hs; simp [lnb_close] at hs
    | some s' =>
      cases hc : s'.closed with
      | false => intro s hs; simp [lnb_close, hc] at hs
      | true =>
        intro s hs
        simp only [lnb_close, hc, if_true] at hs
        cases hs
        exact hc

/-- C8: the single-text translation operation equals the spec's derived
batch-of-one operation — the first element of `_translate_batch [t]`, or
the empty string when that batch result is empty — for both the local NLLB
and the Hugging Face adapters, at every server, text and batch size. -/
theorem claim_C8_single_is_batch_of_one :
    (∀ (server : List Str → Except Str NLLBResponse) (text : Str) (batch_size : Nat),
      lnb_translate_text server text batch_size =
        derivedSingleText (fun ts => lnb_translate_batch server ts batch_size) text) ∧
    (∀ (server : List Str → Except Str HFResponse) (text : Str),
      hf_translate_text server text =
        derivedSingleText (fun ts => hf_translate_batch server ts) text) := by
  constructor
  · intro server text batch_size
    unfold lnb_translate_text derivedSingleText
    cases h : lnb_translate_batch server [text] batch_size with
    | error e => simp [h, Except.map]
    | ok results => cases results <;> simp [h, Except.map, List.headD]
  · intro server text
    unfold hf_translate_text derivedSingleText
    cases h : hf_translate_batch server [text] with
    | error e => simp [h, Except.map]
    | ok results => cases results <;> simp [h, Except.map, List.headD]

/-- C6: language detection never raises: it is a total function whose
value on a failed guess is the default `"eng_Latn"`, and whose value on a
guessed code absent from `lang_map` is the same default. -/
theorem claim_C6_detection_fallback :
    (∀ u : Unit, detect_language (Except.error u) = "eng_Latn") ∧
    ∀ lang : String, lookupCode lang_map lang = none →
      detect_language (Except.ok lang) = "eng_Latn" := by
  constructor
  · intro u; rfl
  · intro lang h
    simp [detect_language, h]

theorem claim_C6_detection_fallback_witness :
    detect_language (Except.error ()) = "eng_Latn" ∧
    detect_language (Except.ok "xx") = "eng_Latn" :=
  ⟨claim_C6_detection_fallback.1 (), claim_C6_detection_fallback.2 "xx" (by decide)⟩

/-- C10: in `BaseTranslator.translate_file`, when the batch returns `tb`
with possibly fewer entries than there are events, the call still succeeds
with the pair (originals, reinserted), where the reinserted document is
the returned translations followed by the original texts of every event at
an index `≥ tb.length` — those events keep their text unchanged, and no
length mismatch is reported. -/
theorem claim_C10_short_batch_keeps_tail :
    ∀ (batch : List Str → Except Str (List Str)) (events tb : List Str),
      batch events = Except.ok tb →
      base_translate_file batch events =
        some (events, tb.take events.length ++ events.drop tb.length) := by
  intro batch events tb h
  unfold base_translate_file
  cases hev : events.isEmpty
  · simp [h, applyTranslations_eq]
  · have : events = [] := List.isEmpty_iff.mp hev
    subst this
    simp

theorem claim_C10_short_batch_keeps_tail_witness :
    base_translate_file (fun _ => Except.ok [['X']]) [['a'], ['b'], ['c']] =
      some ([['a'], ['b'], ['c']], [['X'], ['b'], ['c']]) := by
  have h := claim_C10_short_batch_keeps_tail
    (fun _ => Except.ok [['X']]) [['a'], ['b'], ['c']] [['X']] rfl
  simpa using h

/-- C5: the generative-model response parser returns exactly
`expected_count` strings for every reply text (blank lines skipped,
numbering stripped, short replies padded with the last parsed line, long
replies truncated); concretely, a two-line numbered reply padded to three. -/
theorem claim_C5_gemini_exact_count :
    (∀ (response_text : Str) (expected_count : Nat),
      (parse_batch_response response_text expected_count).length = expected_count) ∧
    parse_batch_response "1. Bonjour\n\n2. Monde".data 3 =
      ["Bonjour".data, "Monde".data, "Monde".data] := by
  constructor
  · intro response_text expected_count
    exact padLoop_take_length expected_count _
  · decide

/-- C1 (counterexample): a backend response carrying fewer entries than
the requested chunk is NOT treated as a failure — `_translate_batch`
returns without raising, with a result strictly shorter than the input
(and hence with no per-index correspondence).  Here the server answers the
one 2-text chunk with a 1-element list. -/
theorem claim_C1_counterexample :
    lnb_translate_batch (fun _ => Except.ok (NLLBResponse.rlist [['x']]))
        [['a'], ['b']] 2 = Except.ok [['x']] ∧
    ([['x']] : List Str).length < ([['a'], ['b']] : List Str).length := by
  exact ⟨rfl, by decide⟩

/-- C1 (amended): when every chunk's backend response is a list holding
exactly the entry-wise translations (`f`) of that chunk, `_translate_batch`
returns without raising a list of exactly the input's length whose entry
`i` is the translation of input entry `i` (`texts.map f`).  A shorter
response, however, silently yields a shorter result (see the
counterexample): no shape-mismatch failure exists. -/
theorem claim_C1_alignment_when_wellshaped :
    ∀ (f : Str → Str) (server : List Str → Except Str NLLBResponse)
      (texts : List Str) (batch_size : Nat),
      0 < batch_size →
      (∀ c ∈ chunksOf batch_size texts,
        server c = Except.ok (NLLBResponse.rlist (c.map f))) →
      lnb_translate_batch server texts batch_size = Except.ok (texts.map f) := by
  intro f server texts batch_size hbs h
  unfold lnb_translate_batch
  cases hev : texts.isEmpty
  · have := runChunks_ok_of_aligned server f (chunksOf batch_size texts) h
    rw [chunksOf_flatten batch_size hbs texts] at this
    simp [this]
  · have : texts = [] := List.isEmpty_iff.mp hev
    subst this
    simp

theorem claim_C1_alignment_when_wellshaped_witness :
    lnb_translate_batch
        (fun c => Except.ok (NLLBResponse.rlist (c.map (fun s => 'T' :: s))))
        [['a'], ['b'], ['c']] 2 =
      Except.ok [['T', 'a'], ['T', 'b'], ['T', 'c']] := by
  have h := claim_C1_alignment_when_wellshaped (fun s => 'T' :: s)
    (fun c => Except.ok (NLLBResponse.rlist (c.map (fun s => 'T' :: s))))
    [['a'], ['b'], ['c']] 2 (by decide) (by decide)
  simpa using h

/-- C3 (counterexample): with two segments, batch size 1 and a backend
failing only the second chunk, the claim demands a success for segment 0
and a failure marker only for segment 1; the code instead discards
everything: `translate_file` returns `None` for the whole document, even
though the first chunk translates fine on its own. -/
theorem claim_C3_counterexample :
    base_translate_file
        (fun ts => lnb_translate_batch
          (fun c => if c = [['b']] then Except.error ['E']
                    else Except.ok (NLLBResponse.rlist c)) ts 1)
        [['a'], ['b']] = none ∧
    lnb_translate_batch
        (fun c => if c = [['b']] then Except.error ['E']
                  else Except.ok (NLLBResponse.rlist c)) [['a']] 1 =
      Except.ok [['a']] := by
  exact ⟨rfl, rfl⟩

/-- C3 (amended): a failure in any chunk makes the whole batch fail:
`_translate_batch` propagates the chunk's exception, and
`BaseTranslator.translate_file` then returns `None` for the entire
document — results of the other chunks are discarded, with no per-chunk
failure isolation. -/
theorem claim_C3_chunk_failure_aborts_document :
    ∀ (server : List Str → Except Str NLLBResponse)
      (events : List Str) (batch_size : Nat),
      (∃ c ∈ chunksOf batch_size events,
        exceptFails (chunkResult server c) = true) →
      exceptFails (lnb_translate_batch server events batch_size) = true ∧
      base_translate_file
        (fun ts => lnb_translate_batch server ts batch_size) events = none := by
  intro server events batch_size hex
  have hne : events.isEmpty = false := by
    cases hev : events.isEmpty
    · rfl
    · have : events = [] := List.isEmpty_iff.mp hev
      subst this
      rcases hex with ⟨c, hc, _⟩
      exact absurd hc (List.not_mem_nil c)
  have hfail := runChunks_fails_of_chunk server (chunksOf batch_size events) hex
  have hbatch : exceptFails (lnb_translate_batch server events batch_size) = true := by
    unfold lnb_translate_batch
    rw [hne]
    simpa using hfail
  refine ⟨hbatch, ?_⟩
  unfold base_translate_file
  rw [hne]
  cases hb : lnb_translate_batch server events batch_size with
  | error e => simp [hb]
  | ok res => rw [hb] at hbatch; simp [exceptFails] at hbatch

theorem claim_C3_chunk_failure_aborts_document_witness :
    exceptFails
        (lnb_translate_batch
          (fun c => if c = [['b']] then Except.error ['E']
                    else Except.ok (NLLBResponse.rlist c)) [['a'], ['b']] 1) = true ∧
    base_translate_file
        (fun ts => lnb_translate_batch
          (fun c => if c = [['b']] then Except.error ['E']
                    else Except.ok (NLLBResponse.rlist c)) ts 1)
        [['a'], ['b']] = none :=
  claim_C3_chunk_failure_aborts_document
    (fun c => if c = [['b']] then Except.error ['E']
              else Except.ok (NLLBResponse.rlist c))
    [['a'], ['b']] 1 (by decide)

/-- C2: for every well-formed timed document (each block an integer-index
line, a `-->` timestamp line, one or more non-blank text lines, then a
blank line, with canonical spacing), parsing recovers exactly each block's
index, timestamp and text payload in the original order, and formatting
the parse reproduces the original text (the input lines joined with
`'\n'`). -/
theorem claim_C2_parse_format_roundtrip :
    ∀ bs : List TimedBlock, wellFormedDoc bs →
      parse_srt_blocks (renderDoc bs) = parsedDoc bs ∧
      format_srt_blocks (parse_srt_blocks (renderDoc bs)) =
        strJoin ['\n'] (renderDoc bs) := by
  intro bs h
  have hp : parse_srt_blocks (renderDoc bs) = parsedDoc bs := by
    have h2 := parse_renderDoc_append bs [] h
    simpa [parse_srt_blocks, parseN] using h2
  refine ⟨hp, ?_⟩
  rw [hp]
  exact format_parsedDoc bs (fun b hb => (h b hb).2.2.2.2.1)

theorem claim_C2_parse_format_roundtrip_witness :
    wellFormedDoc
      [⟨"1".data, "00:00:01,000 --> 00:00:02,000".data, ["Hello".data]⟩,
       ⟨"2".data, "00:00:03,000 --> 00:00:04,000".data, ["World".data]⟩] ∧
    parse_srt_blocks (renderDoc
      [⟨"1".data, "00:00:01,000 --> 00:00:02,000".data, ["Hello".data]⟩,
       ⟨"2".data, "00:00:03,000 --> 00:00:04,000".data, ["World".data]⟩]) =
      parsedDoc
        [⟨"1".data, "00:00:01,000 --> 00:00:02,000".data, ["Hello".data]⟩,
         ⟨"2".data, "00:00:03,000 --> 00:00:04,000".data, ["World".data]⟩] ∧
    format_srt_blocks (parse_srt_blocks (renderDoc
      [⟨"1".data, "00:00:01,000 --> 00:00:02,000".data, ["Hello".data]⟩,
       ⟨"2".data, "00:00:03,000 --> 00:00:04,000".data, ["World".data]⟩])) =
      strJoin ['\n'] (renderDoc
        [⟨"1".data, "00:00:01,000 --> 00:00:02,000".data, ["Hello".data]⟩,
         ⟨"2".data, "00:00:03,000 --> 00:00:04,000".data, ["World".data]⟩]) := by
  have hwf : wellFormedDoc
      [⟨"1".data, "00:00:01,000 --> 00:00:02,000".data, ["Hello".data]⟩,
       ⟨"2".data, "00:00:03,000 --> 00:00:04,000".data, ["World".data]⟩] := by decide
  have h := claim_C2_parse_format_roundtrip
    [⟨"1".data, "00:00:01,000 --> 00:00:02,000".data, ["Hello".data]⟩,
     ⟨"2".data, "00:00:03,000 --> 00:00:04,000".data, ["World".data]⟩] hwf
  exact ⟨hwf, h.1, h.2⟩

/-- C4: `parse_srt_blocks` is a total function — malformed input never
raises — and a digit-only line at end of file, with no following
time-range line, is emitted as an opaque `'other'` block holding the raw
(stripped) line rather than causing a failure: appended after any
well-formed document, it parses to the document's blocks followed by that
one `'other'` block. -/
theorem claim_C4_malformed_digit_eof :
    ∀ (bs : List TimedBlock) (d : Str), wellFormedDoc bs →
      pyStrip d = d → pyIsDigit d = true →
      parse_srt_blocks (renderDoc bs ++ [d]) =
        parsedDoc bs ++ [SrtBlock.other d] := by
  intro bs d h hd hdig
  rw [parse_renderDoc_append bs [d] h]
  congr 1
  show parseN 1 [d] = [SrtBlock.other d]
  simp [parseN, hd, hdig]

theorem claim_C4_malformed_digit_eof_witness :
    parse_srt_blocks (renderDoc
        [⟨"1".data, "00:00:01,000 --> 00:00:02,000".data, ["Hello".data]⟩] ++
        ["7".data]) =
      parsedDoc [⟨"1".data, "00:00:01,000 --> 00:00:02,000".data, ["Hello".data]⟩] ++
        [SrtBlock.other "7".data] :=
  claim_C4_malformed_digit_eof
    [⟨"1".data, "00:00:01,000 --> 00:00:02,000".data, ["Hello".data]⟩]
    "7".data (by decide) (by decide) (by decide)
